import Mathlib

/-!
Verification of the fast-parser module `mypy/fastparse.py`.

The module converts a `typed_ast` parse tree into mypy's own AST
(`ASTConverter`) and converts type-annotation expressions into mypy type
objects (`TypeConverter`).  This file gives a shallow embedding of those
converters over an embedded source grammar, and proves/refutes the frozen
specification claims about them.

Modelling conventions:
* Python `RuntimeError` / failed `assert` paths are modelled with
  `Except String`; the error string mirrors the Python message.
* mypy's node/type classes (`mypy.nodes`, `mypy.types`) are not part of the
  analysed source; their constructors are modelled from the spec as
  line-tagged records, with `-1` as the conventional "no line set" value.
* External parses performed by `typed_ast.parse` (the module-level parse,
  function-type comments) appear as already-parsed inputs.
-/

namespace Fastparse

/-- Modelled from the spec: mypy nodes and type objects are line-tagged and
default to line `-1` when no line has been set (`mypy.nodes`/`mypy.types`
are external to the analysed source). -/
def defaultLine : Int := -1

/-- Target type objects produced by `TypeConverter` (modelled from the spec:
named/unbound type with parameters, implicit tuple-type marker, type-list
marker, ellipsis-type marker, and the "any" type), each carrying a line.
The `TupleType` fallback argument (always `None` here) is omitted. -/
inductive MType where
  | UnboundType (name : String) (args : List MType) (line : Int)
  | TupleTypeM (items : List MType) (impl : Bool) (line : Int)
  | TypeListM (items : List MType) (line : Int)
  | EllipsisTypeM (line : Int)
  | AnyTypeM (line : Int)

/-- The line number carried by a type object. -/
def MType.lineOf : MType → Int
  | .UnboundType _ _ l => l
  | .TupleTypeM _ _ l => l
  | .TypeListM _ l => l
  | .EllipsisTypeM l => l
  | .AnyTypeM l => l

/-- The singleton constants a `NameConstant` node can hold. -/
inductive Singleton where
  | vNone | vTrue | vFalse
deriving DecidableEq, Repr

/-- The value `str(n.value)` for a singleton constant. -/
def Singleton.str : Singleton → String
  | .vNone => "None"
  | .vTrue => "True"
  | .vFalse => "False"

/-- Source-side type expressions: the restricted expression grammar accepted
by `TypeConverter`.  A `Subscript` node's slice must be an `Index` (asserted
in `visit_Subscript`), so the index expression is embedded directly.
String-literal forward references re-enter through an external
`typed_ast.parse` of the string's contents and are not embedded. -/
inductive TExpr where
  | nameT (id : String)
  | nameConstantT (v : Singleton)
  | attributeT (value : TExpr) (attr : String)
  | subscriptT (value : TExpr) (index : TExpr)
  | tupleT (elts : List TExpr)
  | ellipsisT
  | listT (elts : List TExpr)

mutual
/-- The method `TypeConverter.visit`, dispatching on the node kind exactly as the
`visit_*` methods of `TypeConverter` do.  A failed `assert` or an
unimplemented node kind (`generic_visit`) is modelled as `.error`.
`visit_NameConstant` builds `UnboundType(str(n.value))` with no `line`
argument, so that type keeps the default line. -/
def tcVisit (line : Int) : TExpr → Except String MType
  | .nameT id => .ok (.UnboundType id [] line)
  | .nameConstantT v => .ok (.UnboundType v.str [] defaultLine)
  | .attributeT value attr => do
      let before_dot ← tcVisit line value
      match before_dot with
      | .UnboundType nm [] _ => .ok (.UnboundType (nm ++ "." ++ attr) [] line)
      | _ => .error "assert failed in TypeConverter.visit_Attribute"
  | .subscriptT value index => do
      let v ← tcVisit line value
      match v with
      | .UnboundType nm [] _ => do
          let params ←
            match index with
            | .tupleT elts => tcVisitList line elts
            | e => (tcVisit line e).map (fun t => [t])
          .ok (.UnboundType nm params line)
      | _ => .error "assert failed in TypeConverter.visit_Subscript"
  | .tupleT elts =>
      (tcVisitList line elts).map (fun ts => .TupleTypeM ts true line)
  | .ellipsisT => .ok (.EllipsisTypeM line)
  | .listT elts =>
      (tcVisitList line elts).map (fun ts => .TypeListM ts line)

/-- The method `TypeConverter.visit_list`. -/
def tcVisitList (line : Int) : List TExpr → Except String (List MType)
  | [] => .ok []
  | e :: es => do
      let t ← tcVisit line e
      let ts ← tcVisitList line es
      .ok (t :: ts)
end

/-- Visiting an optional annotation sub-node: an absent node is dispatched to
`visit_NoneType`, which yields no type. -/
def tcVisitOpt (line : Int) : Option TExpr → Except String (Option MType)
  | none => .ok none
  | some e => (tcVisit line e).map some

/-- Whether a type expression is a singleton-constant node. -/
def TExpr.isNameConst : TExpr → Bool
  | .nameConstantT _ => true
  | _ => false

/-- Binary operator token classes of the source grammar. -/
inductive Operator where
  | addOp | subOp | multOp | matMultOp | divOp | modOp | powOp
  | lshiftOp | rshiftOp | bitOrOp | bitXorOp | bitAndOp | floorDivOp
deriving DecidableEq, Repr

/-- The table `ASTConverter.op_map`: the fixed operator-class → symbol table
(a lookup outside the table yields `none`, as `dict.get` does). -/
def op_map : Operator → Option String
  | .addOp => some "+"
  | .subOp => some "-"
  | .multOp => some "*"
  | .matMultOp => some "@"
  | .divOp => some "/"
  | .modOp => some "%"
  | .powOp => some "**"
  | .lshiftOp => some "<<"
  | .rshiftOp => some ">>"
  | .bitOrOp => some "|"
  | .bitXorOp => some "^"
  | .bitAndOp => some "&"
  | .floorDivOp => some "//"

/-- The method `ASTConverter.from_operator`: look the operator up in `op_map`; an
unknown operator raises, and the matrix-multiply symbol raises
unconditionally. -/
def from_operator (op : Operator) : Except String String :=
  match op_map op with
  | none => .error "Unknown operator"
  | some op_name =>
      if op_name = "@" then .error "mypy does not support the MatMult operator"
      else .ok op_name

/-- Unary operator token classes. -/
inductive UnaryOpKind where
  | invertOp | notOp | uaddOp | usubOp
deriving DecidableEq, Repr

/-- The symbol chosen by the `isinstance` chain of `visit_UnaryOp`. -/
def UnaryOpKind.symbol : UnaryOpKind → String
  | .invertOp => "~"
  | .notOp => "not"
  | .uaddOp => "+"
  | .usubOp => "-"

/-- Boolean operator token classes (`And` / `Or`). -/
inductive BoolOpKind where
  | andOp | orOp
deriving DecidableEq, Repr

/-- Embedded source expressions: the sub-grammar of `typed_ast` expression
nodes needed by the claims (each node carries its source `lineno`).
Numeric literals are embedded for the integer category; calls, lambdas,
comparisons, subscripts and the remaining expression kinds are outside this
fragment. -/
inductive SrcExpr where
  | nameE (lineno : Int) (id : String)
  | numE (lineno : Int) (n : Int)
  | strE (lineno : Int) (s : String)
  | nameConstantE (lineno : Int) (v : Singleton)
  | ellipsisE (lineno : Int)
  | boolOpE (lineno : Int) (op : BoolOpKind) (values : List SrcExpr)
  | binOpE (lineno : Int) (op : Operator) (left : SrcExpr) (rght : SrcExpr)
  | unaryOpE (lineno : Int) (op : UnaryOpKind) (operand : SrcExpr)
  | attributeE (lineno : Int) (value : SrcExpr) (attr : String)

/-- The source line carried by an embedded source expression node. -/
def SrcExpr.lineno : SrcExpr → Int
  | .nameE l _ => l
  | .numE l _ => l
  | .strE l _ => l
  | .nameConstantE l _ => l
  | .ellipsisE l => l
  | .boolOpE l _ _ => l
  | .binOpE l _ _ _ => l
  | .unaryOpE l _ _ => l
  | .attributeE l _ _ => l

/-- Whether a source expression is a singleton-constant node. -/
def SrcExpr.isNameConstE : SrcExpr → Bool
  | .nameConstantE _ _ => true
  | _ => false

/-- Target expression nodes (modelled from the spec: mypy's line-tagged
expression hierarchy, restricted to the kinds this fragment produces). -/
inductive OutExpr where
  | NameExpr (name : String) (line : Int)
  | IntExpr (v : Int) (line : Int)
  | StrExpr (s : String) (line : Int)
  | EllipsisExpr (line : Int)
  | OpExpr (op : String) (left : OutExpr) (rght : OutExpr) (line : Int)
  | UnaryExpr (op : String) (e : OutExpr) (line : Int)
  | MemberExpr (e : OutExpr) (name : String) (line : Int)
deriving DecidableEq, Repr

/-- The line carried by a target expression node. -/
def OutExpr.lineOf : OutExpr → Int
  | .NameExpr _ l => l
  | .IntExpr _ l => l
  | .StrExpr _ l => l
  | .EllipsisExpr l => l
  | .OpExpr _ _ _ l => l
  | .UnaryExpr _ _ l => l
  | .MemberExpr _ _ l => l

/-- The mutation `node.set_line(lineno)` (modelled from the spec: records the line on the
node itself). -/
def OutExpr.setLine : OutExpr → Int → OutExpr
  | .NameExpr n _, l => .NameExpr n l
  | .IntExpr v _, l => .IntExpr v l
  | .StrExpr s _, l => .StrExpr s l
  | .EllipsisExpr _, l => .EllipsisExpr l
  | .OpExpr o a b _, l => .OpExpr o a b l
  | .UnaryExpr o e _, l => .UnaryExpr o e l
  | .MemberExpr e n _, l => .MemberExpr e n l

/-- A node's depth, used to separate differently-nested `OpExpr` shapes. -/
def OutExpr.depth : OutExpr → Nat
  | .NameExpr _ _ => 1
  | .IntExpr _ _ => 1
  | .StrExpr _ _ => 1
  | .EllipsisExpr _ => 1
  | .OpExpr _ a b _ => a.depth + b.depth + 1
  | .UnaryExpr _ e _ => e.depth + 1
  | .MemberExpr e _ _ => e.depth + 1

/-- The local `group` helper of `visit_BoolOp`: right-fold a list of
converted operands into nested pairwise `OpExpr` nodes.  On a list of fewer
than two elements the source helper reads `vals[0]` of an empty list
(an `IndexError`), modelled as `none`; `visit_BoolOp` asserts length ≥ 2
before calling it. -/
def group (op : String) : List OutExpr → Option OutExpr
  | [a, b] => some (.OpExpr op a b defaultLine)
  | a :: rest => (group op rest).map (fun g => .OpExpr op a g defaultLine)
  | [] => none

mutual
/-- The method `ASTConverter.visit` on expression nodes.  Each handler wrapped in
`@with_line` builds its node and then the wrapper applies
`node.set_line(ast.lineno)`; `visit_NameConstant` is not wrapped, so its
`NameExpr` keeps the default line.  Unsupported-construct paths
(`from_operator` on matrix-multiply, the `visit_BoolOp` assert) surface as
`.error`.  The `super().attr` special case of `visit_Attribute` tests for a
`Call` node, a kind outside this embedded fragment, so only its
`MemberExpr` branch is reachable here. -/
def convExpr : SrcExpr → Except String OutExpr
  | .nameE ln id => .ok ((OutExpr.NameExpr id defaultLine).setLine ln)
  | .numE ln n => .ok ((OutExpr.IntExpr n defaultLine).setLine ln)
  | .strE ln s => .ok ((OutExpr.StrExpr s defaultLine).setLine ln)
  | .nameConstantE _ v => .ok (OutExpr.NameExpr v.str defaultLine)
  | .ellipsisE ln => .ok ((OutExpr.EllipsisExpr defaultLine).setLine ln)
  | .boolOpE ln op vals =>
      if vals.length < 2 then .error "assert failed in visit_BoolOp"
      else
        let opName :=
          match op with
          | .andOp => "and"
          | .orOp => "or"
        do
          let ts ← convExprList vals
          match group opName ts with
          | some g => .ok (g.setLine ln)
          | none => .error "IndexError in visit_BoolOp.group"
  | .binOpE ln op l r => do
      let opName ← from_operator op
      let tl ← convExpr l
      let tr ← convExpr r
      .ok ((OutExpr.OpExpr opName tl tr defaultLine).setLine ln)
  | .unaryOpE ln op e => do
      let te ← convExpr e
      .ok ((OutExpr.UnaryExpr op.symbol te defaultLine).setLine ln)
  | .attributeE ln v attr => do
      let tv ← convExpr v
      .ok ((OutExpr.MemberExpr tv attr defaultLine).setLine ln)

/-- The method `ASTConverter.visit_list` on expressions. -/
def convExprList : List SrcExpr → Except String (List OutExpr)
  | [] => .ok []
  | e :: es => do
      let t ← convExpr e
      let ts ← convExprList es
      .ok (t :: ts)
end

/-- Visiting an optional expression sub-node (`visit_NoneType` yields no
node for an absent sub-node). -/
def convOptExpr : Option SrcExpr → Except String (Option OutExpr)
  | none => .ok none
  | some e => (convExpr e).map some

mutual
/-- Whether a source expression contains a matrix-multiply operator token. -/
def SrcExpr.hasMatMult : SrcExpr → Bool
  | .binOpE _ op l r => op = .matMultOp || l.hasMatMult || r.hasMatMult
  | .boolOpE _ _ vals => SrcExpr.hasMatMultList vals
  | .unaryOpE _ _ e => e.hasMatMult
  | .attributeE _ v _ => v.hasMatMult
  | _ => false

/-- Whether some expression in a list contains a matrix-multiply token. -/
def SrcExpr.hasMatMultList : List SrcExpr → Bool
  | [] => false
  | e :: es => e.hasMatMult || SrcExpr.hasMatMultList es
end

/-- The argument passing-convention constants of `mypy.nodes`. -/
inductive ArgKind where
  | ARG_POS | ARG_OPT | ARG_STAR | ARG_NAMED | ARG_STAR2
deriving DecidableEq, Repr

/-- A mypy `Var` node (modelled from the spec: named binding variable with a
resolvedness flag and a line). -/
structure Var where
  name : String
  is_ready : Bool := true
  line : Int := defaultLine
deriving DecidableEq, Repr

/-- A mypy `Argument` descriptor: owning variable, declared type, default
value and passing-convention kind (modelled from the spec). -/
structure Argument where
  var : Var
  typeAnnot : Option MType
  initializer : Option OutExpr
  kind : ArgKind

/-- A source-side parameter (`typed_ast` `arg`): name and optional
annotation expression. -/
structure RawArg where
  arg : String
  annot : Option TExpr

/-- The source-side parameter list (`typed_ast` `arguments`). -/
structure RawArgs where
  args : List RawArg
  vararg : Option RawArg
  kwonlyargs : List RawArg
  kw_defaults : List SrcExpr
  kwarg : Option RawArg
  defaults : List SrcExpr

/-- The local `make_argument` helper of `transform_args`. -/
def make_argument (line : Int) (arg : RawArg) (default : Option SrcExpr) (kind : ArgKind) :
    Except String Argument := do
  let arg_type ← tcVisitOpt line arg.annot
  let init ← convOptExpr default
  .ok { var := { name := arg.arg }, typeAnnot := arg_type, initializer := init, kind := kind }

/-- The step `if args.vararg is not None: new_args.append(...)` (and `kwarg`)
step of `transform_args`: an absent variadic parameter contributes nothing,
a present one contributes its single descriptor. -/
def optArgSegment (line : Int) (v : Option RawArg) (kind : ArgKind) :
    Except String (List Argument) :=
  match v with
  | none => pure []
  | some a => (make_argument line a none kind).map (fun x => [x])

/-- The method `ASTConverter.transform_args`: the appending loops over each parameter
segment become maps over the corresponding slices.  The Python slice
`args.args[:num_no_defaults]` coincides with `take`/`drop` whenever there
are at most as many defaults as positional parameters, which the source
grammar guarantees. -/
def transform_args (args : RawArgs) (line : Int) : Except String (List Argument) := do
  let num_no_defaults := args.args.length - args.defaults.length
  let a1 ← (args.args.take num_no_defaults).mapM
      (fun a => make_argument line a none .ARG_POS)
  let a2 ← ((args.args.drop num_no_defaults).zip args.defaults).mapM
      (fun p => make_argument line p.1 (some p.2) .ARG_OPT)
  let a3 ← optArgSegment line args.vararg .ARG_STAR
  let num_no_kw_defaults := args.kwonlyargs.length - args.kw_defaults.length
  let a4 ← (args.kwonlyargs.take num_no_kw_defaults).mapM
      (fun a => make_argument line a none .ARG_NAMED)
  let a5 ← ((args.kwonlyargs.drop num_no_kw_defaults).zip args.kw_defaults).mapM
      (fun p => make_argument line p.1 (some p.2) .ARG_NAMED)
  let a6 ← optArgSegment line args.kwarg .ARG_STAR2
  .ok (a1 ++ a2 ++ a3 ++ a4 ++ a5 ++ a6)

/-- A mypy `CallableType` (modelled from the spec: fully-resolved callable
signature; the `definition` back-reference set afterwards in
`visit_FunctionDef` is omitted). -/
structure CallableType where
  arg_types : List MType
  arg_kinds : List ArgKind
  arg_names : List String
  ret_type : MType
  fallback : Option MType := none

/-- The pre-parsed contents of a function type comment (the external
`typed_ast.parse(…, 'func_type')` result: argument-type expressions and a
return-type expression). -/
structure FuncTypeAst where
  argtypes : List TExpr
  returns : TExpr

/-- Lines 203–209 of `visit_FunctionDef` (type-comment branch): convert the
comment's argument-type expressions and insert an implicit first parameter
type when inside a class and the comment lists fewer types than the
function has parameters.  The `a if a is not None else AnyType()` guard is
the identity here, since visiting a present type expression never yields an
absent type. -/
def commentArgTypes (in_class : Bool) (line : Int) (argtypes : List TExpr) (numArgs : Nat) :
    Except String (List MType) := do
  let ats ← tcVisitList line argtypes
  if in_class ∧ ats.length < numArgs then
    .ok (.AnyTypeM defaultLine :: ats)
  else
    .ok ats

/-- Embedded source statements: the sub-grammar of `typed_ast` statement
nodes needed by the claims.  A function type comment appears pre-parsed
(see `FuncTypeAst`); a class keyword carries its optional name and value. -/
inductive SrcStmt where
  | functionDefS (lineno : Int) (name : String) (args : RawArgs) (body : List SrcStmt)
      (decorator_list : List SrcExpr) (returns : Option TExpr)
      (type_comment : Option FuncTypeAst)
  | classDefS (lineno : Int) (name : String) (bases : List SrcExpr)
      (keywords : List (Option String × SrcExpr)) (body : List SrcStmt)
      (decorator_list : List SrcExpr)
  | returnS (lineno : Int) (value : Option SrcExpr)
  | assertS (lineno : Int) (test : SrcExpr) (msg : Option SrcExpr)
  | exprS (lineno : Int) (value : SrcExpr)
  | passS (lineno : Int)
  | importS (lineno : Int) (names : List (String × Option String))

/-- The source line carried by an embedded source statement node. -/
def SrcStmt.lineno : SrcStmt → Int
  | .functionDefS l _ _ _ _ _ _ => l
  | .classDefS l _ _ _ _ _ => l
  | .returnS l _ => l
  | .assertS l _ _ => l
  | .exprS l _ => l
  | .passS l => l
  | .importS l _ => l

/-- Target statement nodes (modelled from the spec: mypy's line-tagged
statement hierarchy, restricted to the kinds this fragment produces).  A
`Decorator`'s wrapped `FuncDef` is typed as a `FuncDef` in mypy, so its
fields are carried flat (`fname`, `fargs`, `fbody`, `ftyp`, `fdecorated`,
`fline`); a block is a statement list with the block's own line. -/
inductive OutStmt where
  | FuncDefS (name : String) (args : List Argument) (body : Option (List OutStmt × Int))
      (typ : Option CallableType) (is_decorated : Bool) (line : Int)
  | DecoratorS (fname : String) (fargs : List Argument) (fbody : Option (List OutStmt × Int))
      (ftyp : Option CallableType) (fdecorated : Bool) (fline : Int)
      (decorators : List OutExpr) (var : Var) (line : Int)
  | OverloadedFuncDefS (items : List OutStmt) (line : Int)
  | ClassDefS (name : String) (body : List OutStmt) (bodyLine : Int)
      (bases : List OutExpr) (metaclass : Option String) (decorators : List OutExpr)
      (line : Int)
  | ReturnStmtS (value : Option OutExpr) (line : Int)
  | AssertStmtS (test : OutExpr) (line : Int)
  | ExpressionStmtS (value : OutExpr) (line : Int)
  | PassStmtS (line : Int)
  | ImportS (ids : List (String × Option String)) (line : Int)

/-- The line carried by a target statement node. -/
def OutStmt.lineOf : OutStmt → Int
  | .FuncDefS _ _ _ _ _ l => l
  | .DecoratorS _ _ _ _ _ _ _ _ l => l
  | .OverloadedFuncDefS _ l => l
  | .ClassDefS _ _ _ _ _ _ l => l
  | .ReturnStmtS _ l => l
  | .AssertStmtS _ l => l
  | .ExpressionStmtS _ l => l
  | .PassStmtS l => l
  | .ImportS _ l => l

/-- The mutation `node.set_line(lineno)` on statements (modelled from the spec: records
the line on the node itself). -/
def OutStmt.setLine : OutStmt → Int → OutStmt
  | .FuncDefS nm a b t d _, l => .FuncDefS nm a b t d l
  | .DecoratorS nm a b t d fl ds v _, l => .DecoratorS nm a b t d fl ds v l
  | .OverloadedFuncDefS xs _, l => .OverloadedFuncDefS xs l
  | .ClassDefS nm b bl bs m ds _, l => .ClassDefS nm b bl bs m ds l
  | .ReturnStmtS v _, l => .ReturnStmtS v l
  | .AssertStmtS t _, l => .AssertStmtS t l
  | .ExpressionStmtS v _, l => .ExpressionStmtS v l
  | .PassStmtS _, l => .PassStmtS l
  | .ImportS ids _, l => .ImportS ids l

/-- The converter's call-scoped mutable fields: the inside-class flag and
the import accumulator. -/
structure ConvState where
  in_class : Bool
  imports : List OutStmt

/-- The module-level `find` helper: first element satisfying the test. -/
def find {α : Type} (f : α → Bool) : List α → Option α
  | [] => none
  | x :: xs => if f x then some x else find f xs

/-- The method `ASTConverter.stringify_name`: dotted-name chaining over `Name` and
`Attribute` nodes; anything else hits `assert False`. -/
def stringify_name : SrcExpr → Except String String
  | .nameE _ id => .ok id
  | .attributeE _ v attr => (stringify_name v).map (fun s => s ++ "." ++ attr)
  | _ => .error "assert False in stringify_name"

/-- The mutation `func_def.body.set_line(...)`: setting the line of the (optional) body
block.  The source would fail on an absent body; function bodies are
non-empty in the source grammar, so the optional map is only ever applied
to a present block. -/
def setBlockLine (b : Option (List OutStmt × Int)) (l : Int) : Option (List OutStmt × Int) :=
  b.map (fun p => (p.1, l))

/-- Flushing the pending-overload buffer (the two `if len(current_overload)`
branches of `fix_function_overloads`): a single pending decorated definition
is appended as-is, two or more become one `OverloadedFuncDef`. -/
def flushOverload (cur : List OutStmt) : List OutStmt :=
  if cur.length = 1 then cur
  else if cur.length > 1 then [.OverloadedFuncDefS cur defaultLine]
  else []

/-- Whether a statement is a decorated definition continuing the pending
run: `isinstance(stmt, Decorator) and stmt.name() == current_overload_name`
(a `Decorator`'s name is its wrapped definition's name; comparing a string
with `None` is false). -/
def isOverloadPart (stmt : OutStmt) (curName : Option String) : Bool :=
  match stmt with
  | .DecoratorS fname .. => some fname == curName
  | _ => false

/-- The statement loop of `fix_function_overloads`, carrying the pending
buffer and its name; the returned list is what the loop appends to `ret`
from this point on. -/
def fixLoop : List OutStmt → List OutStmt → Option String → List OutStmt
  | [], cur, _ => flushOverload cur
  | stmt :: rest, cur, curName =>
      if isOverloadPart stmt curName then
        fixLoop rest (cur ++ [stmt]) curName
      else
        flushOverload cur ++
          match stmt with
          | .DecoratorS fname fa fb ft fd fl ds v l =>
              fixLoop rest [.DecoratorS fname fa fb ft fd fl ds v l] (some fname)
          | s => s :: fixLoop rest [] none

/-- The method `ASTConverter.fix_function_overloads`. -/
def fix_function_overloads (stmts : List OutStmt) : List OutStmt :=
  fixLoop stmts [] none

/-- The decorator-handling tail of `visit_FunctionDef` (lines 229–239) plus
the `@with_line` wrapper applied to its result: no decorators returns the
definition itself (line set to the `def` line); otherwise the definition is
marked decorated, its line advanced by the decorator count, its body's line
synchronized, and it is wrapped in a `Decorator` carrying the converted
decorator expressions and a not-yet-ready `Var` placed at the first
decorator's line. -/
def finishFunctionDef (ln : Int) (nm : String) (fargs : List Argument)
    (bodyBlock : Option (List OutStmt × Int)) (ftyp : Option CallableType)
    (decorator_list : List SrcExpr) : Except String OutStmt :=
  match decorator_list with
  | [] => .ok ((OutStmt.FuncDefS nm fargs bodyBlock ftyp false defaultLine).setLine ln)
  | d :: ds => do
      let k := (d :: ds).length
      let decs ← convExprList (d :: ds)
      .ok ((OutStmt.DecoratorS nm fargs (setBlockLine bodyBlock (ln + k)) ftyp true
              (ln + k) decs { name := nm, is_ready := false, line := d.lineno }
              defaultLine).setLine ln)

mutual
/-- The method `ASTConverter.visit` on statement nodes, with the two call-scoped fields
(`in_class`, `imports`) threaded explicitly.  Each handler's node is built
and then `@with_line` sets its line to the source node's `lineno`.
`visit_Assert` converts only the test expression — the message is unused.
`visit_ClassDef` sets the inside-class flag, converts the body (through
`fix_function_overloads`), extracts a `metaclass` keyword, and then sets the
flag to `False`.  `visit_Import` appends the produced node to the import
accumulator (the accumulator holds the same object that `@with_line`
subsequently tags, so the line-tagged node is recorded). -/
def convStmt (st : ConvState) : SrcStmt → Except String (OutStmt × ConvState)
  | .functionDefS ln nm args body decorator_list returns type_comment => do
      let fargs ← transform_args args ln
      let arg_kinds := fargs.map (fun a => a.kind)
      let arg_names := fargs.map (fun a => a.var.name)
      let (arg_types, return_type) ←
        match type_comment with
        | some ft => do
            let ats ← commentArgTypes st.in_class ln ft.argtypes fargs.length
            let rt ← tcVisit ln ft.returns
            pure (ats.map some, some rt)
        | none => do
            let rt ← tcVisitOpt ln returns
            pure (fargs.map (fun a => a.typeAnnot), rt)
      let func_type : Option CallableType :=
        if arg_types.any Option.isSome || return_type.isSome then
          some { arg_types := arg_types.map (fun a => a.getD (.AnyTypeM defaultLine)),
                 arg_kinds := arg_kinds,
                 arg_names := arg_names,
                 ret_type := return_type.getD (.AnyTypeM defaultLine) }
        else none
      let (bodyBlock, st₁) ← as_block st body ln
      let s ← finishFunctionDef ln nm fargs bodyBlock func_type decorator_list
      .ok (s, st₁)
  | .classDefS ln nm bases keywords body decorator_list => do
      let st₀ := { st with in_class := true }
      let metaclass ←
        match find (fun kw => kw.1 == some "metaclass") keywords with
        | some kw => (stringify_name kw.2).map some
        | none => pure (none : Option String)
      let (body', st₁) ← convStmts st₀ body
      let bases' ← convExprList bases
      let decs' ← convExprList decorator_list
      .ok ((OutStmt.ClassDefS nm (fix_function_overloads body') defaultLine bases'
              metaclass decs' defaultLine).setLine ln,
           { st₁ with in_class := false })
  | .returnS ln value => do
      let v ← convOptExpr value
      .ok ((OutStmt.ReturnStmtS v defaultLine).setLine ln, st)
  | .assertS ln test _ => do
      let t ← convExpr test
      .ok ((OutStmt.AssertStmtS t defaultLine).setLine ln, st)
  | .exprS ln value => do
      let v ← convExpr value
      .ok ((OutStmt.ExpressionStmtS v defaultLine).setLine ln, st)
  | .passS ln => .ok ((OutStmt.PassStmtS defaultLine).setLine ln, st)
  | .importS ln names =>
      let i := (OutStmt.ImportS names defaultLine).setLine ln
      .ok (i, { st with imports := st.imports ++ [i] })

/-- The method `ASTConverter.visit_list` on statements (state threaded left to right). -/
def convStmts (st : ConvState) : List SrcStmt → Except String (List OutStmt × ConvState)
  | [] => .ok ([], st)
  | s :: ss => do
      let (t, st₁) ← convStmt st s
      let (ts, st₂) ← convStmts st₁ ss
      .ok (t :: ts, st₂)

/-- The method `ASTConverter.as_block`: an empty statement list yields no block,
otherwise the converted statements form a block tagged with the given
line (`Block(self.visit(stmts))` with the head conversion unfolded one
step, so that the recursion is structural). -/
def as_block (st : ConvState) (stmts : List SrcStmt) (lineno : Int) :
    Except String (Option (List OutStmt × Int) × ConvState) :=
  match stmts with
  | [] => .ok (none, st)
  | s :: ss => do
      let (t, st₁) ← convStmt st s
      let (ts, st₂) ← convStmts st₁ ss
      .ok (some (t :: ts, lineno), st₂)
end

/-- A source module node: top-level statements and the recognized
"type: ignore" line set. -/
structure SrcModule where
  body : List SrcStmt
  type_ignores : List Int

/-- The target module node (modelled from the spec; the `weak_opts` field,
always empty here, is omitted). -/
structure MypyFile where
  defs : List OutStmt
  imports : List OutStmt
  is_bom : Bool
  ignored_lines : List Int
  path : Option String := none
  is_stub : Bool := false

/-- The module conversion `ASTConverter().visit` (`visit_Module`): convert the
body with fresh call-scoped state, fold overloads, and bundle the import
accumulator and ignore lines into a non-stub module. -/
def convModule (m : SrcModule) : Except String MypyFile := do
  let (body, st) ← convStmts { in_class := false, imports := [] } m.body
  .ok { defs := fix_function_overloads body, imports := st.imports, is_bom := false,
        ignored_lines := m.type_ignores }

/-- A syntax error raised by the external parser. -/
structure SynErr where
  lineno : Int
  msg : String

/-- The module-level `parse` entry point.  The external `typed_ast.parse`
outcome is the input: on a syntax error, report to the diagnostics sink when
one was supplied (yielding a degenerate empty module) or re-raise; otherwise
run the converter — whose own failures propagate, the sink untouched — and
stamp path and stub flag from the filename. -/
def parse (src : Except SynErr SrcModule) (fnam : Option String)
    (errors : Option (List (Int × String))) :
    Except String MypyFile × Option (List (Int × String)) :=
  let is_stub_file :=
    match fnam with
    | some f => f.endsWith ".pyi"
    | none => false
  match src with
  | .error e =>
      match errors with
      | some es =>
          (.ok { defs := [], imports := [], is_bom := false, ignored_lines := [] },
           some (es ++ [(e.lineno, e.msg)]))
      | none => (.error e.msg, none)
  | .ok ast =>
      ((convModule ast).map (fun tree => { tree with path := fnam, is_stub := is_stub_file }),
       errors)

/-- Whether an `Except` computation succeeded. -/
def exceptIsOk {ε α : Type} : Except ε α → Bool
  | .ok _ => true
  | .error _ => false

/-- The overload-folding contract in the spec's words: scan the statement
list; a maximal run of consecutive decorated definitions sharing one
defining name collapses to a single combined node (containing the whole run
in order) when its length is at least 2 and passes through unwrapped when
its length is 1; any other statement passes through in place and terminates
the run before it. -/
def groupRuns : List OutStmt → List OutStmt
  | [] => []
  | s :: rest =>
    match s with
    | .DecoratorS fname fa fb ft fd fl ds v l =>
        let run := OutStmt.DecoratorS fname fa fb ft fd fl ds v l ::
          rest.takeWhile (fun t => isOverloadPart t (some fname))
        (if run.length = 1 then run else [.OverloadedFuncDefS run defaultLine]) ++
          groupRuns (rest.dropWhile (fun t => isOverloadPart t (some fname)))
    | s' => s' :: groupRuns rest
termination_by l => l.length
decreasing_by
  · exact Nat.lt_succ_of_le ((List.dropWhile_sublist _).length_le)
  · simp

/-! ## Helper lemmas -/

/-- Destructing a successful `Except` bind. -/
theorem except_bind_ok {ε α β : Type} {x : Except ε α} {f : α → Except ε β} {b : β}
    (h : x >>= f = .ok b) : ∃ a, x = .ok a ∧ f a = .ok b := by
  cases x with
  | error e => exact Except.noConfusion h
  | ok a => exact ⟨a, rfl, by simpa only [bind, Except.bind] using h⟩

/-- Destructing a successful `Except` map. -/
theorem except_map_ok {ε α β : Type} {x : Except ε α} {f : α → β} {b : β}
    (h : x.map f = .ok b) : ∃ a, x = .ok a ∧ f a = b := by
  cases x with
  | error e => simp [Except.map] at h
  | ok a => exact ⟨a, rfl, by simpa [Except.map] using h⟩

/-- Applying `set_line` determines the line field of an expression node. -/
theorem lineOf_setLineE (g : OutExpr) (l : Int) : (g.setLine l).lineOf = l := by
  cases g <;> rfl

/-- Applying `set_line` determines the line field of a statement node. -/
theorem lineOf_setLineS (s : OutStmt) (l : Int) : (s.setLine l).lineOf = l := by
  cases s <;> rfl

/-- Whatever `finishFunctionDef` returns is tagged with the `def` line by
the `@with_line` wrapper. -/
theorem finishFunctionDef_lineOf {ln : Int} {nm : String} {fargs : List Argument}
    {bodyBlock : Option (List OutStmt × Int)} {ftyp : Option CallableType}
    {decs : List SrcExpr} {s : OutStmt}
    (h : finishFunctionDef ln nm fargs bodyBlock ftyp decs = .ok s) : s.lineOf = ln := by
  cases decs with
  | nil =>
      simp only [finishFunctionDef, Except.ok.injEq] at h
      subst h
      exact lineOf_setLineS _ _
  | cons d ds =>
      simp only [finishFunctionDef] at h
      obtain ⟨dl, hdl, h⟩ := except_bind_ok h
      simp only [Except.ok.injEq] at h
      subst h
      exact lineOf_setLineS _ _

/-- Every expression node has positive depth. -/
theorem OutExpr.depth_pos (g : OutExpr) : 1 ≤ g.depth := by
  cases g <;> simp [OutExpr.depth]

/-- A successful `mapM` over `Except` preserves length. -/
theorem mapM_ok_length {α β : Type} {f : α → Except String β} :
    ∀ {es : List α} {ts : List β}, es.mapM f = .ok ts → ts.length = es.length := by
  intro es
  induction es with
  | nil =>
      intro ts h
      simp only [List.mapM_nil, pure, Except.pure, Except.ok.injEq] at h
      simp [← h]
  | cons a as ih =>
      intro ts h
      rw [List.mapM_cons] at h
      obtain ⟨y, hy, h⟩ := except_bind_ok h
      obtain ⟨ys, hys, h⟩ := except_bind_ok h
      simp only [pure, Except.pure, Except.ok.injEq] at h
      subst h
      simp [ih hys]

/-- A successful `mapM` over `Except` succeeds element-wise. -/
theorem mapM_ok_getElem {α β : Type} {f : α → Except String β} :
    ∀ {es : List α} {ts : List β}, es.mapM f = .ok ts →
      ∀ i (hi : i < es.length) (hi' : i < ts.length), f es[i] = .ok ts[i] := by
  intro es
  induction es with
  | nil => intro ts h i hi; simp at hi
  | cons a as ih =>
      intro ts h i hi hi'
      rw [List.mapM_cons] at h
      obtain ⟨y, hy, h⟩ := except_bind_ok h
      obtain ⟨ys, hys, h⟩ := except_bind_ok h
      simp only [pure, Except.pure, Except.ok.injEq] at h
      subst h
      cases i with
      | zero => simpa using hy
      | succ j =>
          simp only [List.getElem_cons_succ]
          exact ih hys j (by simpa using hi) (by simpa using hi')

/-- Every element produced by a successful `mapM` comes from some input
element. -/
theorem mapM_ok_mem {α β : Type} {f : α → Except String β} :
    ∀ {es : List α} {ts : List β}, es.mapM f = .ok ts →
      ∀ t ∈ ts, ∃ e ∈ es, f e = .ok t := by
  intro es
  induction es with
  | nil =>
      intro ts h t ht
      simp only [List.mapM_nil, pure, Except.pure, Except.ok.injEq] at h
      subst h; simp at ht
  | cons a as ih =>
      intro ts h t ht
      rw [List.mapM_cons] at h
      obtain ⟨y, hy, h⟩ := except_bind_ok h
      obtain ⟨ys, hys, h⟩ := except_bind_ok h
      simp only [pure, Except.pure, Except.ok.injEq] at h
      subst h
      rcases List.mem_cons.mp ht with rfl | hmem
      · exact ⟨a, List.mem_cons_self a as, hy⟩
      · obtain ⟨e, he, hfe⟩ := ih hys t hmem
        exact ⟨e, List.mem_cons_of_mem a he, hfe⟩

/-- Inverting a successful `make_argument`. -/
theorem make_argument_ok {line : Int} {arg : RawArg} {default : Option SrcExpr}
    {kind : ArgKind} {t : Argument} (h : make_argument line arg default kind = .ok t) :
    t.kind = kind ∧ t.var = { name := arg.arg } ∧
      ∃ ini, convOptExpr default = .ok ini ∧ t.initializer = ini := by
  unfold make_argument at h
  obtain ⟨at1, h1, h⟩ := except_bind_ok h
  obtain ⟨ini, h2, h⟩ := except_bind_ok h
  simp only [Except.ok.injEq] at h
  subst h
  exact ⟨rfl, rfl, ini, h2, rfl⟩

/-! ## Claim theorems -/

/-- Claim C10, confirmed.  For every assert statement, conversion produces an
assert node containing only the converted test expression; the optional
message expression is discarded: the result is the mapped conversion of the
test alone, and two assert statements differing only in their message
convert identically. -/
theorem C10_assert_message_discarded (st : ConvState) (ln : Int) (test : SrcExpr)
    (m₁ m₂ : Option SrcExpr) :
    convStmt st (.assertS ln test m₁) =
      (convExpr test).map (fun t => ((OutStmt.AssertStmtS t defaultLine).setLine ln, st)) ∧
    convStmt st (.assertS ln test m₁) = convStmt st (.assertS ln test m₂) := by
  constructor
  · cases h : convExpr test <;>
      simp [convStmt, h, Except.map, bind, Except.bind]
  · rfl

/-- Claim C4, counterexample.  A type converter constructed for line 5 produces,
for the singleton constant `None`, a type carrying the default line `-1`,
not the supplied line 5 — refuting "every type object … carries exactly the
source line number that was supplied to the converter". -/
theorem C4_counterexample :
    (tcVisit 5 (.nameConstantT .vNone)).map MType.lineOf = .ok defaultLine ∧
    ¬ (tcVisit 5 (.nameConstantT .vNone)).map MType.lineOf = .ok 5 := by
  refine ⟨rfl, fun h => ?_⟩
  rw [show (tcVisit 5 (.nameConstantT .vNone)).map MType.lineOf = .ok defaultLine from rfl] at h
  simp only [Except.ok.injEq, defaultLine] at h
  omega

/-- Claim C4, amended.  Every type object produced by a converter call
carries the line supplied at construction, except the object produced for a
singleton constant, which carries the default line `-1` regardless of the
supplied line. -/
theorem C4_type_line (line : Int) (e : TExpr) (t : MType)
    (h : tcVisit line e = .ok t) :
    t.lineOf = if e.isNameConst then defaultLine else line := by
  cases e with
  | nameT id =>
      simp only [tcVisit, Except.ok.injEq] at h
      subst h; rfl
  | nameConstantT v =>
      simp only [tcVisit, Except.ok.injEq] at h
      subst h; rfl
  | attributeT value attr =>
      simp only [tcVisit] at h
      obtain ⟨b, hb, h⟩ := except_bind_ok h
      split at h
      · simp only [Except.ok.injEq] at h
        subst h; rfl
      · exact Except.noConfusion h
  | subscriptT value index =>
      simp only [tcVisit] at h
      obtain ⟨b, hb, h⟩ := except_bind_ok h
      split at h
      · split at h <;>
          · obtain ⟨ps, hps, h⟩ := except_bind_ok h
            simp only [Except.ok.injEq] at h
            subst h; rfl
      · exact Except.noConfusion h
  | tupleT elts =>
      simp only [tcVisit] at h
      obtain ⟨ts, hts, h⟩ := except_map_ok h
      subst h; rfl
  | ellipsisT =>
      simp only [tcVisit, Except.ok.injEq] at h
      subst h; rfl
  | listT elts =>
      simp only [tcVisit] at h
      obtain ⟨ts, hts, h⟩ := except_map_ok h
      subst h; rfl

/-- Witness for `C4_type_line` at a concrete conversion. -/
theorem C4_type_line_witness :
    MType.lineOf (.UnboundType "List" [.UnboundType "int" [] 7] 7) =
      if TExpr.isNameConst (.subscriptT (.nameT "List") (.nameT "int")) then defaultLine
      else 7 :=
  C4_type_line 7 (.subscriptT (.nameT "List") (.nameT "int"))
    (.UnboundType "List" [.UnboundType "int" [] 7] 7) (by unfold tcVisit; rfl)

/-- Claim C6, counterexample.  Inside a class, a type comment listing 1
argument type for a function with 3 parameters — two fewer, not exactly one
fewer — still gets an implicit first type inserted, refuting "inserted …
exactly when … the type comment lists one fewer argument type than the
function has parameters". -/
theorem C6_counterexample :
    commentArgTypes true 1 [.nameT "int"] 3 =
      .ok [.AnyTypeM defaultLine, .UnboundType "int" [] 1] ∧
    ¬ (1 : Nat) = 3 - 1 := by
  exact ⟨rfl, by omega⟩

/-- Claim C6, amended.  The implicit first parameter type is inserted exactly
when conversion is inside a class body and the type comment lists strictly
fewer argument types than the function has parameters (any shortfall, not
only a shortfall of one); otherwise — outside a class body, or when the
comment lists at least as many types as there are parameters — the
converted list is returned unchanged. -/
theorem C6_implicit_self (in_class : Bool) (line : Int) (argtypes : List TExpr)
    (numArgs : Nat) (ts : List MType) (h : tcVisitList line argtypes = .ok ts) :
    commentArgTypes in_class line argtypes numArgs =
      .ok (if in_class = true ∧ ts.length < numArgs then .AnyTypeM defaultLine :: ts
           else ts) ∧
    ((commentArgTypes in_class line argtypes numArgs).map List.length = .ok (ts.length + 1)
      ↔ (in_class = true ∧ ts.length < numArgs)) := by
  have hmain : commentArgTypes in_class line argtypes numArgs =
      .ok (if in_class = true ∧ ts.length < numArgs then .AnyTypeM defaultLine :: ts
           else ts) := by
    unfold commentArgTypes
    rw [h]
    cases in_class with
    | false => simp [bind, Except.bind]
    | true =>
        by_cases hlen : ts.length < numArgs
        · simp [bind, Except.bind, hlen]
        · simp [bind, Except.bind, hlen]
  refine ⟨hmain, ?_⟩
  rw [hmain]
  cases in_class with
  | false =>
      simp only [Bool.false_eq_true, false_and, if_false, iff_false]
      intro hcontra
      simp only [Except.map, Except.ok.injEq] at hcontra
      omega
  | true =>
      by_cases hlen : ts.length < numArgs
      · simp [Except.map, hlen]
      · constructor
        · intro hcc
          simp only [hlen, and_false, if_false, Except.map, Except.ok.injEq] at hcc
          omega
        · intro hcc; exact absurd hcc.2 hlen

/-- Witness for `C6_implicit_self` at a concrete conversion. -/
theorem C6_implicit_self_witness :
    commentArgTypes true 2 [.nameT "int"] 2 =
      .ok (if true = true ∧ ([MType.UnboundType "int" [] 2]).length < 2 then
             .AnyTypeM defaultLine :: [MType.UnboundType "int" [] 2]
           else [MType.UnboundType "int" [] 2]) ∧
    ((commentArgTypes true 2 [.nameT "int"] 2).map List.length =
        .ok ([MType.UnboundType "int" [] 2].length + 1)
      ↔ (true = true ∧ ([MType.UnboundType "int" [] 2]).length < 2)) :=
  C6_implicit_self true 2 [.nameT "int"] 2 [.UnboundType "int" [] 2] rfl

/-- Claim C9, counterexample.  The expression-level singleton constant `True`
at source line 7 converts to a name-reference node whose line is the
default `-1`, not 7: the `NameConstant` handler is not wrapped in
`@with_line`, refuting "the generic name-reference node emitted for a
singleton constant … carries its source node's line number". -/
theorem C9_counterexample :
    convExpr (.nameConstantE 7 .vTrue) = .ok (.NameExpr "True" defaultLine) ∧
    ¬ OutExpr.lineOf (.NameExpr "True" defaultLine) = 7 := by
  exact ⟨rfl, by decide⟩

/-- The expression half of the line-propagation statement, by case analysis
over the handler table. -/
theorem C9_expr_line (e : SrcExpr) (t : OutExpr) (h : convExpr e = .ok t) :
    t.lineOf = if e.isNameConstE then defaultLine else e.lineno := by
  cases e with
  | nameE ln id =>
      simp only [convExpr, Except.ok.injEq] at h
      subst h
      simp [lineOf_setLineE, SrcExpr.isNameConstE, SrcExpr.lineno]
  | numE ln n =>
      simp only [convExpr, Except.ok.injEq] at h
      subst h
      simp [lineOf_setLineE, SrcExpr.isNameConstE, SrcExpr.lineno]
  | strE ln s =>
      simp only [convExpr, Except.ok.injEq] at h
      subst h
      simp [lineOf_setLineE, SrcExpr.isNameConstE, SrcExpr.lineno]
  | nameConstantE ln v =>
      simp only [convExpr, Except.ok.injEq] at h
      subst h
      simp [OutExpr.lineOf, SrcExpr.isNameConstE]
  | ellipsisE ln =>
      simp only [convExpr, Except.ok.injEq] at h
      subst h
      simp [lineOf_setLineE, SrcExpr.isNameConstE, SrcExpr.lineno]
  | boolOpE ln op vals =>
      simp only [convExpr] at h
      split at h
      · exact Except.noConfusion h
      · obtain ⟨ts, hts, h⟩ := except_bind_ok h
        split at h
        · simp only [Except.ok.injEq] at h
          subst h
          simp [lineOf_setLineE, SrcExpr.isNameConstE, SrcExpr.lineno]
        · exact Except.noConfusion h
  | binOpE ln op l r =>
      simp only [convExpr] at h
      obtain ⟨s1, h1, h⟩ := except_bind_ok h
      obtain ⟨tl, h2, h⟩ := except_bind_ok h
      obtain ⟨tr, h3, h⟩ := except_bind_ok h
      simp only [Except.ok.injEq] at h
      subst h
      simp [lineOf_setLineE, SrcExpr.isNameConstE, SrcExpr.lineno]
  | unaryOpE ln op operand =>
      simp only [convExpr] at h
      obtain ⟨te, h1, h⟩ := except_bind_ok h
      simp only [Except.ok.injEq] at h
      subst h
      simp [lineOf_setLineE, SrcExpr.isNameConstE, SrcExpr.lineno]
  | attributeE ln v attr =>
      simp only [convExpr] at h
      obtain ⟨tv, h1, h⟩ := except_bind_ok h
      simp only [Except.ok.injEq] at h
      subst h
      simp [lineOf_setLineE, SrcExpr.isNameConstE, SrcExpr.lineno]

/-- Claim C9, amended.  Every node emitted by the statement/expression
converter carries the line number of its source node, except the node
emitted for an expression-level singleton constant, whose handler is not
`@with_line`-wrapped and which therefore keeps the default line: singleton
constants are among the line-less node kinds. -/
theorem C9_line_propagation :
    (∀ (e : SrcExpr) (t : OutExpr), convExpr e = .ok t →
        t.lineOf = if e.isNameConstE then defaultLine else e.lineno) ∧
    (∀ (st : ConvState) (s : SrcStmt) (t : OutStmt) (st' : ConvState),
        convStmt st s = .ok (t, st') → t.lineOf = s.lineno) := by
  constructor
  · exact C9_expr_line
  · intro st s t st' h
    cases s with
    | functionDefS ln nm args body dl returns tc =>
        simp only [convStmt] at h
        obtain ⟨fargs, h1, h⟩ := except_bind_ok h
        split at h
        · obtain ⟨ats, hats, h⟩ := except_bind_ok h
          obtain ⟨rt, hrt, h⟩ := except_bind_ok h
          obtain ⟨pr, hpr, h⟩ := except_bind_ok h
          obtain ⟨bb, hbb, h⟩ := except_bind_ok h
          obtain ⟨sres, hfin, h⟩ := except_bind_ok h
          simp only [Except.ok.injEq, Prod.mk.injEq] at h
          obtain ⟨hts, hst⟩ := h
          subst hts
          exact finishFunctionDef_lineOf hfin
        · obtain ⟨rt, hrt, h⟩ := except_bind_ok h
          obtain ⟨pr, hpr, h⟩ := except_bind_ok h
          obtain ⟨bb, hbb, h⟩ := except_bind_ok h
          obtain ⟨sres, hfin, h⟩ := except_bind_ok h
          simp only [Except.ok.injEq, Prod.mk.injEq] at h
          obtain ⟨hts, hst⟩ := h
          subst hts
          exact finishFunctionDef_lineOf hfin
    | classDefS ln nm bases kws body dl =>
        simp only [convStmt] at h
        split at h
        all_goals
          obtain ⟨mc, hmc, h⟩ := except_bind_ok h
          obtain ⟨⟨body2, st₁⟩, hbody, h⟩ := except_bind_ok h
          obtain ⟨bs, hbs, h⟩ := except_bind_ok h
          obtain ⟨ds2, hds, h⟩ := except_bind_ok h
          simp only [Except.ok.injEq, Prod.mk.injEq] at h
          obtain ⟨hts, hst⟩ := h
          subst hts
          exact lineOf_setLineS _ _
    | returnS ln v =>
        simp only [convStmt] at h
        obtain ⟨x, hx, h⟩ := except_bind_ok h
        simp only [Except.ok.injEq, Prod.mk.injEq] at h
        obtain ⟨hts, hst⟩ := h
        subst hts
        exact lineOf_setLineS _ _
    | assertS ln test msg =>
        simp only [convStmt] at h
        obtain ⟨x, hx, h⟩ := except_bind_ok h
        simp only [Except.ok.injEq, Prod.mk.injEq] at h
        obtain ⟨hts, hst⟩ := h
        subst hts
        exact lineOf_setLineS _ _
    | exprS ln v =>
        simp only [convStmt] at h
        obtain ⟨x, hx, h⟩ := except_bind_ok h
        simp only [Except.ok.injEq, Prod.mk.injEq] at h
        obtain ⟨hts, hst⟩ := h
        subst hts
        exact lineOf_setLineS _ _
    | passS ln =>
        simp only [convStmt, Except.ok.injEq, Prod.mk.injEq] at h
        obtain ⟨hts, hst⟩ := h
        subst hts
        exact lineOf_setLineS _ _
    | importS ln ids =>
        simp only [convStmt, Except.ok.injEq, Prod.mk.injEq] at h
        obtain ⟨hts, hst⟩ := h
        subst hts
        exact lineOf_setLineS _ _

/-- Witness for `C9_line_propagation` at a concrete conversion. -/
theorem C9_line_propagation_witness :
    OutExpr.lineOf (.NameExpr "x" 4) =
      if SrcExpr.isNameConstE (.nameE 4 "x") then defaultLine
      else SrcExpr.lineno (.nameE 4 "x") :=
  C9_line_propagation.1 (.nameE 4 "x") (.NameExpr "x" 4) rfl

/-- Claim C5, counterexample.  Converting a class definition while the
inside-class flag is already set leaves the flag cleared, not restored:
after the conversion the state records `in_class = false`, refuting "for a
class definition converted while the flag was already set … the flag is
still set after the inner class's conversion completes". -/
theorem C5_counterexample :
    (convStmt { in_class := true, imports := [] }
        (.classDefS 1 "C" [] [] [] [])).map (fun r => r.2.in_class) = .ok false ∧
    (Except.ok false : Except String Bool) ≠ .ok true := by
  exact ⟨rfl, by simp⟩

/-- Claim C5, amended.  The inside-class flag is set for the duration of the
class body conversion and is unconditionally cleared (set to `false`)
afterwards — not restored to its previous value; in particular, after a
class nested inside another class's body is converted, the flag is
`false`. -/
theorem C5_in_class_cleared (st : ConvState) (ln : Int) (nm : String)
    (bases : List SrcExpr) (kws : List (Option String × SrcExpr)) (body : List SrcStmt)
    (decs : List SrcExpr) (s : OutStmt) (st' : ConvState)
    (h : convStmt st (.classDefS ln nm bases kws body decs) = .ok (s, st')) :
    st'.in_class = false ∧
    ∃ body' st₁, convStmts { st with in_class := true } body = .ok (body', st₁) ∧
      st'.imports = st₁.imports := by
  simp only [convStmt] at h
  split at h
  all_goals
    obtain ⟨mc, hmc, h⟩ := except_bind_ok h
    obtain ⟨⟨body', st₁⟩, hbody, h⟩ := except_bind_ok h
    obtain ⟨bs, hbs, h⟩ := except_bind_ok h
    obtain ⟨ds2, hds, h⟩ := except_bind_ok h
    simp only [Except.ok.injEq, Prod.mk.injEq] at h
    obtain ⟨hs, hst⟩ := h
    subst hst
    exact ⟨rfl, body', st₁, hbody, rfl⟩

/-- Witness for `C5_in_class_cleared` at a concrete conversion. -/
theorem C5_in_class_cleared_witness :
    ({ in_class := false, imports := [] } : ConvState).in_class = false ∧
    ∃ body' st₁,
      convStmts { in_class := true, imports := [] } ([] : List SrcStmt) =
        .ok (body', st₁) ∧
      ({ in_class := false, imports := [] } : ConvState).imports = st₁.imports :=
  C5_in_class_cleared { in_class := false, imports := [] } 2 "D" [] [] [] []
    (.ClassDefS "D" [] defaultLine [] none [] 2) { in_class := false, imports := [] } rfl

/-- Claim C7, confirmed.  A function definition at line `ln` with `k ≥ 1`
decorators becomes a decorator node wrapping the inner definition: the inner
definition's line is `ln + k`, its body's line is set to that same value,
the node carries the converted decorator expressions, and the placeholder
binding variable is marked not ready (and sits at the first decorator's
line). -/
theorem C7_decorator_wrapping (ln : Int) (nm : String) (fargs : List Argument)
    (bodyBlock : Option (List OutStmt × Int)) (ftyp : Option CallableType)
    (d : SrcExpr) (ds : List SrcExpr) (decs : List OutExpr)
    (h : convExprList (d :: ds) = .ok decs) :
    finishFunctionDef ln nm fargs bodyBlock ftyp (d :: ds) =
      .ok (OutStmt.DecoratorS nm fargs
            (setBlockLine bodyBlock (ln + (d :: ds).length)) ftyp true
            (ln + (d :: ds).length) decs
            { name := nm, is_ready := false, line := d.lineno } ln) ∧
    (∀ stmts bl, bodyBlock = some (stmts, bl) →
        setBlockLine bodyBlock (ln + (d :: ds).length) =
          some (stmts, ln + (d :: ds).length)) := by
  constructor
  · simp only [finishFunctionDef]
    rw [h]
    simp [bind, Except.bind, OutStmt.setLine]
  · intro stmts bl hbb
    rw [hbb]
    simp [setBlockLine]

/-- Witness for `C7_decorator_wrapping` at a concrete conversion. -/
theorem C7_decorator_wrapping_witness :
    finishFunctionDef 10 "f" [] (some ([.PassStmtS 11], 10)) none [.nameE 10 "dec"] =
      .ok (OutStmt.DecoratorS "f" []
            (setBlockLine (some ([.PassStmtS 11], 10))
              (10 + ([SrcExpr.nameE 10 "dec"]).length)) none true
            (10 + ([SrcExpr.nameE 10 "dec"]).length) [.NameExpr "dec" 10]
            { name := "f", is_ready := false, line := 10 } 10) ∧
    (∀ stmts bl, (some ([OutStmt.PassStmtS 11], (10 : Int))) = some (stmts, bl) →
        setBlockLine (some ([.PassStmtS 11], 10))
            (10 + ([SrcExpr.nameE 10 "dec"]).length) =
          some (stmts, (10 + ([SrcExpr.nameE 10 "dec"]).length : Int))) :=
  C7_decorator_wrapping 10 "f" [] (some ([.PassStmtS 11], 10)) none (.nameE 10 "dec") []
    [.NameExpr "dec" 10] rfl

/-- A run of ≥ 2 operands never groups left: the right operand of the head
`OpExpr` cannot itself be the head's left subtree extended, by a depth
count.  (Auxiliary base facts for the any-length lemma below are inlined in
the claim theorem.) -/
theorem group_cons_cons (op : String) (v w y : OutExpr) (ys : List OutExpr) :
    group op (v :: w :: y :: ys) =
      (group op (w :: y :: ys)).map (fun g => .OpExpr op v g defaultLine) := rfl

/-- Claim C3, confirmed.  The method `visit_BoolOp` right-folds an operand chain: for a
list of at least two operands the local `group` helper produces the
right-nested fold, a right-nested pair of same-operator nodes is never equal
to the left-nested one, and the conversion of a boolean-operator node is the
`group` result of its converted operands tagged with the source line. -/
theorem C3_boolop_right_fold :
    (∀ (op : String) (v z : OutExpr) (ws : List OutExpr),
        group op (v :: (ws ++ [z])) =
          some (List.foldr (fun a b => OutExpr.OpExpr op a b defaultLine) z (v :: ws))) ∧
    (∀ (op : String) (a b c : OutExpr) (l₁ l₂ l₃ l₄ : Int),
        OutExpr.OpExpr op a (.OpExpr op b c l₁) l₂ ≠
          .OpExpr op (.OpExpr op a b l₃) c l₄) ∧
    (∀ (ln : Int) (op : BoolOpKind) (vals : List SrcExpr) (ts : List OutExpr)
        (g : OutExpr), convExprList vals = .ok ts → 2 ≤ vals.length →
        group (match op with | .andOp => "and" | .orOp => "or") ts = some g →
        convExpr (.boolOpE ln op vals) = .ok (g.setLine ln)) := by
  refine ⟨?_, ?_, ?_⟩
  · intro op v z ws
    induction ws generalizing v with
    | nil => rfl
    | cons w ws ih =>
        have hne : ws ++ [z] ≠ [] := by simp
        obtain ⟨y, ys, hsplit⟩ := List.exists_cons_of_ne_nil hne
        rw [List.cons_append, hsplit, group_cons_cons, ← hsplit, ih w]
        rfl
  · intro op a b c l₁ l₂ l₃ l₄ hEq
    injection hEq with h1 h2 h3 h4
    have hd := congrArg OutExpr.depth h2
    have hb := OutExpr.depth_pos b
    simp [OutExpr.depth] at hd
    omega
  · intro ln op vals ts g hts hlen hg
    have hnotlt : ¬ (vals.length < 2) := by omega
    simp only [convExpr]
    rw [if_neg hnotlt, hts]
    simp only [bind, Except.bind]
    rw [hg]

/-- Witness for `C3_boolop_right_fold` at the three-operand chain
`a and b and c`. -/
theorem C3_boolop_right_fold_witness :
    convExpr (.boolOpE 1 .andOp [.nameE 1 "a", .nameE 1 "b", .nameE 1 "c"]) =
      .ok ((OutExpr.OpExpr "and" (.NameExpr "a" 1)
             (.OpExpr "and" (.NameExpr "b" 1) (.NameExpr "c" 1) defaultLine)
             defaultLine).setLine 1) :=
  C3_boolop_right_fold.2.2 1 .andOp [.nameE 1 "a", .nameE 1 "b", .nameE 1 "c"]
    [.NameExpr "a" 1, .NameExpr "b" 1, .NameExpr "c" 1]
    (.OpExpr "and" (.NameExpr "a" 1)
      (.OpExpr "and" (.NameExpr "b" 1) (.NameExpr "c" 1) defaultLine) defaultLine)
    rfl (by decide) rfl

/-- A conversion that reaches a matrix-multiply operator fails, and the
failure propagates through every enclosing conversion (nothing catches it):
proved for expressions and expression lists simultaneously by strong
induction on size. -/
theorem conv_matmult_fails (n : Nat) :
    (∀ e : SrcExpr, sizeOf e ≤ n → e.hasMatMult = true →
        exceptIsOk (convExpr e) = false) ∧
    (∀ es : List SrcExpr, sizeOf es ≤ n → SrcExpr.hasMatMultList es = true →
        exceptIsOk (convExprList es) = false) := by
  induction n using Nat.strong_induction_on with
  | _ n ih =>
    constructor
    · intro e hsize hmm2
      cases e with
      | nameE ln id => simp [SrcExpr.hasMatMult] at hmm2
      | numE ln v => simp [SrcExpr.hasMatMult] at hmm2
      | strE ln v => simp [SrcExpr.hasMatMult] at hmm2
      | nameConstantE ln v => simp [SrcExpr.hasMatMult] at hmm2
      | ellipsisE ln => simp [SrcExpr.hasMatMult] at hmm2
      | boolOpE ln op vals =>
          simp only [SrcExpr.hasMatMult] at hmm2
          have hvals : sizeOf vals < n := by simp at hsize; omega
          have hlist := (ih (sizeOf vals) hvals).2 vals le_rfl hmm2
          simp only [convExpr]
          by_cases hl : vals.length < 2
          · rw [if_pos hl]; rfl
          · rw [if_neg hl]
            cases hconv : convExprList vals with
            | error msg => simp [bind, Except.bind, exceptIsOk, hconv]
            | ok ts => rw [hconv] at hlist; simp [exceptIsOk] at hlist
      | binOpE ln op l r =>
          simp only [SrcExpr.hasMatMult, Bool.or_eq_true, decide_eq_true_eq] at hmm2
          have hsl : sizeOf l < n := by simp at hsize; omega
          have hsr : sizeOf r < n := by simp at hsize; omega
          simp only [convExpr]
          rcases hmm2 with (rfl | hml) | hmr
          · simp [from_operator, op_map, bind, Except.bind, exceptIsOk]
          · have hl' := (ih (sizeOf l) hsl).1 l le_rfl hml
            cases hop : from_operator op with
            | error m => simp [bind, Except.bind, exceptIsOk, hop]
            | ok sym =>
                cases hcl : convExpr l with
                | error m => simp [bind, Except.bind, exceptIsOk, hop, hcl]
                | ok tl => rw [hcl] at hl'; simp [exceptIsOk] at hl'
          · have hr' := (ih (sizeOf r) hsr).1 r le_rfl hmr
            cases hop : from_operator op with
            | error m => simp [bind, Except.bind, exceptIsOk, hop]
            | ok sym =>
                cases hcl : convExpr l with
                | error m => simp [bind, Except.bind, exceptIsOk, hop, hcl]
                | ok tl =>
                    cases hcr : convExpr r with
                    | error m => simp [bind, Except.bind, exceptIsOk, hop, hcl, hcr]
                    | ok tr => rw [hcr] at hr'; simp [exceptIsOk] at hr'
      | unaryOpE ln op operand =>
          simp only [SrcExpr.hasMatMult] at hmm2
          have hso : sizeOf operand < n := by simp at hsize; omega
          have ho' := (ih (sizeOf operand) hso).1 operand le_rfl hmm2
          simp only [convExpr]
          cases hco : convExpr operand with
          | error m => simp [bind, Except.bind, exceptIsOk, hco]
          | ok te => rw [hco] at ho'; simp [exceptIsOk] at ho'
      | attributeE ln v attr =>
          simp only [SrcExpr.hasMatMult] at hmm2
          have hsv : sizeOf v < n := by simp at hsize; omega
          have hv' := (ih (sizeOf v) hsv).1 v le_rfl hmm2
          simp only [convExpr]
          cases hcv : convExpr v with
          | error m => simp [bind, Except.bind, exceptIsOk, hcv]
          | ok tv => rw [hcv] at hv'; simp [exceptIsOk] at hv'
    · intro es hsize hmm2
      cases es with
      | nil => simp [SrcExpr.hasMatMultList] at hmm2
      | cons e rest =>
          simp only [SrcExpr.hasMatMultList, Bool.or_eq_true] at hmm2
          have hse : sizeOf e < n := by simp at hsize; omega
          have hsrest : sizeOf rest < n := by simp at hsize; omega
          simp only [convExprList]
          rcases hmm2 with hme | hmrest
          · have he' := (ih (sizeOf e) hse).1 e le_rfl hme
            cases hce : convExpr e with
            | error m => simp [bind, Except.bind, exceptIsOk, hce]
            | ok t => rw [hce] at he'; simp [exceptIsOk] at he'
          · have hrest' := (ih (sizeOf rest) hsrest).2 rest le_rfl hmrest
            cases hce : convExpr e with
            | error m => simp [bind, Except.bind, exceptIsOk, hce]
            | ok t =>
                cases hcrest : convExprList rest with
                | error m => simp [bind, Except.bind, exceptIsOk, hce, hcrest]
                | ok ts => rw [hcrest] at hrest'; simp [exceptIsOk] at hrest'

/-- Claim C8, confirmed.  The matrix-multiply operator maps to an
unconditional internal failure; any expression containing it fails to
convert (the failure is never caught inside the module); for every
successfully parsed input the diagnostics sink is left untouched — in
particular a conversion failure surfaces to the caller as the error itself;
the sink receives exactly the syntax errors raised by the external parser
before conversion (and with no sink supplied, the syntax error is
re-raised). -/
theorem C8_hard_failures :
    (from_operator .matMultOp = .error "mypy does not support the MatMult operator") ∧
    (∀ e : SrcExpr, e.hasMatMult = true → exceptIsOk (convExpr e) = false) ∧
    (∀ (m : SrcModule) (fnam : Option String) (errors : Option (List (Int × String))),
        (parse (.ok m) fnam errors).2 = errors) ∧
    (∀ (m : SrcModule) (fnam : Option String) (errors : Option (List (Int × String)))
        (msg : String), convModule m = .error msg →
        (parse (.ok m) fnam errors).1 = .error msg) ∧
    (∀ (e : SynErr) (fnam : Option String) (es : List (Int × String)),
        parse (.error e) fnam (some es) =
          (.ok { defs := [], imports := [], is_bom := false, ignored_lines := [] },
           some (es ++ [(e.lineno, e.msg)]))) ∧
    (∀ (e : SynErr) (fnam : Option String), parse (.error e) fnam none = (.error e.msg, none)) := by
  refine ⟨rfl, ?_, ?_, ?_, ?_, ?_⟩
  · intro e hm
    exact (conv_matmult_fails (sizeOf e)).1 e le_rfl hm
  · intro m fnam errors
    rfl
  · intro m fnam errors msg hmod
    simp [parse, hmod, Except.map]
  · intro e fnam es
    rfl
  · intro e fnam
    rfl

/-- Witness for `C8_hard_failures`: the expression `a @ b` fails to
convert. -/
theorem C8_hard_failures_witness :
    exceptIsOk (convExpr (.binOpE 1 .matMultOp (.nameE 1 "a") (.nameE 1 "b"))) = false :=
  C8_hard_failures.2.1 (.binOpE 1 .matMultOp (.nameE 1 "a") (.nameE 1 "b")) rfl

/-- No statement continues a run whose pending name is `None`
(`stmt.name() == None` is false for every statement). -/
theorem isOverloadPart_none (s : OutStmt) : isOverloadPart s none = false := by
  cases s <;> rfl

/-- Flushing a non-empty pending buffer: a singleton passes through, a
longer buffer becomes one combined node. -/
theorem flushOverload_cons (s : OutStmt) (ts : List OutStmt) :
    flushOverload (s :: ts) =
      if (s :: ts).length = 1 then s :: ts
      else [.OverloadedFuncDefS (s :: ts) defaultLine] := by
  cases ts with
  | nil => rfl
  | cons b bs =>
      simp only [flushOverload, List.length_cons]
      rw [if_neg (by omega), if_pos (by omega), if_neg (by omega)]

/-- Running the folding loop with a pending buffer named `nm`: the loop
extends the buffer with the longest matching prefix, flushes it, and
restarts on the remainder. -/
theorem fixLoop_run (nm : String) (rest : List OutStmt) : ∀ cur,
    fixLoop rest cur (some nm) =
      flushOverload (cur ++ rest.takeWhile (fun t => isOverloadPart t (some nm))) ++
        fixLoop (rest.dropWhile (fun t => isOverloadPart t (some nm))) [] none := by
  induction rest with
  | nil =>
      intro cur
      rw [List.takeWhile_nil, List.dropWhile_nil, List.append_nil]
      rw [show fixLoop [] [] (none : Option String) = [] from rfl, List.append_nil]
      rfl
  | cons s rest ih =>
      intro cur
      cases hpart : isOverloadPart s (some nm) with
      | true =>
          rw [show fixLoop (s :: rest) cur (some nm) = fixLoop rest (cur ++ [s]) (some nm)
              from by simp [fixLoop, hpart]]
          rw [ih (cur ++ [s])]
          simp [List.takeWhile_cons, List.dropWhile_cons, hpart, List.append_assoc]
      | false =>
          simp only [List.takeWhile_cons, List.dropWhile_cons, hpart, Bool.false_eq_true,
            if_false, List.append_nil]
          cases s <;> simp [fixLoop, hpart, isOverloadPart_none, flushOverload]

/-- The folding loop started fresh computes the spec's run grouping, by
strong induction on the list length. -/
theorem fix_eq_groupRuns_aux : ∀ (n : Nat) (stmts : List OutStmt),
    stmts.length ≤ n → fix_function_overloads stmts = groupRuns stmts := by
  intro n
  induction n with
  | zero =>
      intro stmts h
      rw [Nat.le_zero, List.length_eq_zero] at h
      subst h
      simp [fix_function_overloads, fixLoop, flushOverload, groupRuns]
  | succ n ih =>
      intro stmts h
      cases stmts with
      | nil => simp [fix_function_overloads, fixLoop, flushOverload, groupRuns]
      | cons s rest =>
          unfold fix_function_overloads
          cases s
          case DecoratorS fname fa fb ft fd fl ds v l =>
            rw [show fixLoop (OutStmt.DecoratorS fname fa fb ft fd fl ds v l :: rest) [] none =
                fixLoop rest [.DecoratorS fname fa fb ft fd fl ds v l] (some fname)
                from by simp [fixLoop, isOverloadPart_none, flushOverload]]
            rw [fixLoop_run]
            have hlen : (rest.dropWhile (fun t => isOverloadPart t (some fname))).length ≤ n := by
              have hsub := (List.dropWhile_sublist
                (l := rest) (fun t => isOverloadPart t (some fname))).length_le
              simp only [List.length_cons] at h
              omega
            rw [show fixLoop (rest.dropWhile fun t => isOverloadPart t (some fname)) [] none =
                fix_function_overloads (rest.dropWhile fun t => isOverloadPart t (some fname))
                from rfl]
            rw [ih _ hlen]
            conv_rhs => rw [groupRuns]
            rw [List.singleton_append, flushOverload_cons]
          all_goals
            have hrest : rest.length ≤ n := by
              simp only [List.length_cons] at h
              omega
            simp only [fixLoop, isOverloadPart_none, Bool.false_eq_true, if_false]
            rw [show (flushOverload [] : List OutStmt) = [] from rfl, List.nil_append]
            rw [show fixLoop rest [] (none : Option String) = fix_function_overloads rest
                from rfl]
            rw [ih rest hrest]
            simp [groupRuns]

/-- Claim C1, confirmed.  Overload-folding computes exactly the spec's run
grouping: scanning any statement list, each maximal run of N ≥ 2
consecutive decorated definitions sharing one defining name is replaced by
exactly one combined overloaded-definition node holding the whole run in
original order, a run of exactly one decorated definition is emitted
unchanged, and every other statement (which terminates and flushes the
pending run) is preserved in place — stated as the equality of
`fix_function_overloads` with the run-grouping function `groupRuns` written
from the spec. -/
theorem C1_overload_folding : ∀ stmts : List OutStmt,
    fix_function_overloads stmts = groupRuns stmts :=
  fun stmts => fix_eq_groupRuns_aux stmts.length stmts le_rfl

/-- A `make_argument` with no default yields a descriptor of the requested
kind and no initializer. -/
theorem make_argument_none_ok {line : Int} {arg : RawArg} {kind : ArgKind} {t : Argument}
    (h : make_argument line arg none kind = .ok t) :
    t.kind = kind ∧ t.initializer = none := by
  obtain ⟨hkind, hvar, ini, hio, hit⟩ := make_argument_ok h
  refine ⟨hkind, ?_⟩
  simp only [convOptExpr, Except.ok.injEq] at hio
  rw [hit, ← hio]

/-- A `make_argument` with a default yields a descriptor of the requested
kind whose initializer is the converted default. -/
theorem make_argument_some_ok {line : Int} {arg : RawArg} {d : SrcExpr} {kind : ArgKind}
    {t : Argument} (h : make_argument line arg (some d) kind = .ok t) :
    t.kind = kind ∧ ∃ d', convExpr d = .ok d' ∧ t.initializer = some d' := by
  obtain ⟨hkind, hvar, ini, hio, hit⟩ := make_argument_ok h
  simp only [convOptExpr] at hio
  obtain ⟨d', hd', hini⟩ := except_map_ok hio
  exact ⟨hkind, d', hd', by rw [hit, ← hini]⟩

/-- Claim C2, confirmed.  The method `transform_args` emits descriptors in exactly the
order [positional-required…, positional-with-default…, variadic-positional?,
keyword-only-required…, keyword-only-with-default…, variadic-keyword?]: the
output splits into six consecutive segments whose lengths are
`count(positional) − count(positional defaults)`, `count(positional
defaults)`, `0/1` for the variadic-positional, `count(kwonly) −
count(kwonly defaults)`, `count(kwonly defaults)`, and `0/1` for the
variadic-keyword; the required segments carry no initializer, the
with-default segments pair each descriptor with its converted default in
order, and the total count is consistent with the input counts. -/
theorem C2_transform_args (a : RawArgs) (line : Int) (out : List Argument)
    (hd : a.defaults.length ≤ a.args.length)
    (hk : a.kw_defaults.length ≤ a.kwonlyargs.length)
    (h : transform_args a line = .ok out) :
    ∃ a1 a2 a3 a4 a5 a6 : List Argument,
      out = a1 ++ a2 ++ a3 ++ a4 ++ a5 ++ a6 ∧
      a1.length = a.args.length - a.defaults.length ∧
      a2.length = a.defaults.length ∧
      a3.length = (match a.vararg with | some _ => 1 | none => 0) ∧
      a4.length = a.kwonlyargs.length - a.kw_defaults.length ∧
      a5.length = a.kw_defaults.length ∧
      a6.length = (match a.kwarg with | some _ => 1 | none => 0) ∧
      (∀ x ∈ a1, x.kind = .ARG_POS ∧ x.initializer = none) ∧
      (∀ x ∈ a2, x.kind = .ARG_OPT) ∧
      (∀ x ∈ a3, x.kind = .ARG_STAR ∧ x.initializer = none) ∧
      (∀ x ∈ a4, x.kind = .ARG_NAMED ∧ x.initializer = none) ∧
      (∀ x ∈ a5, x.kind = .ARG_NAMED) ∧
      (∀ x ∈ a6, x.kind = .ARG_STAR2 ∧ x.initializer = none) ∧
      (∀ i (hi : i < a.defaults.length) (hi2 : i < a2.length), ∃ d',
          convExpr (a.defaults.get ⟨i, hi⟩) = .ok d' ∧
          (a2.get ⟨i, hi2⟩).initializer = some d') ∧
      (∀ i (hi : i < a.kw_defaults.length) (hi2 : i < a5.length), ∃ d',
          convExpr (a.kw_defaults.get ⟨i, hi⟩) = .ok d' ∧
          (a5.get ⟨i, hi2⟩).initializer = some d') ∧
      out.length = a.args.length + a3.length + a.kwonlyargs.length + a6.length := by
  simp only [transform_args] at h
  obtain ⟨a1, h1, h⟩ := except_bind_ok h
  obtain ⟨a2, h2, h⟩ := except_bind_ok h
  obtain ⟨a3, h3, h⟩ := except_bind_ok h
  obtain ⟨a4, h4, h⟩ := except_bind_ok h
  obtain ⟨a5, h5, h⟩ := except_bind_ok h
  obtain ⟨a6, h6, h⟩ := except_bind_ok h
  simp only [Except.ok.injEq] at h
  subst h
  have ha1len : a1.length = a.args.length - a.defaults.length := by
    have := mapM_ok_length h1
    rw [List.length_take] at this
    omega
  have ha2len : a2.length = a.defaults.length := by
    have := mapM_ok_length h2
    rw [List.length_zip, List.length_drop] at this
    omega
  have ha3len : a3.length = (match a.vararg with | some _ => 1 | none => 0) := by
    cases hv : a.vararg with
    | none =>
        rw [hv] at h3
        simp only [optArgSegment, pure, Except.pure, Except.ok.injEq] at h3
        simp [← h3]
    | some v =>
        rw [hv] at h3
        simp only [optArgSegment] at h3
        obtain ⟨x, hx, hx2⟩ := except_map_ok h3
        simp [← hx2]
  have ha4len : a4.length = a.kwonlyargs.length - a.kw_defaults.length := by
    have := mapM_ok_length h4
    rw [List.length_take] at this
    omega
  have ha5len : a5.length = a.kw_defaults.length := by
    have := mapM_ok_length h5
    rw [List.length_zip, List.length_drop] at this
    omega
  have ha6len : a6.length = (match a.kwarg with | some _ => 1 | none => 0) := by
    cases hv : a.kwarg with
    | none =>
        rw [hv] at h6
        simp only [optArgSegment, pure, Except.pure, Except.ok.injEq] at h6
        simp [← h6]
    | some v =>
        rw [hv] at h6
        simp only [optArgSegment] at h6
        obtain ⟨x, hx, hx2⟩ := except_map_ok h6
        simp [← hx2]
  refine ⟨a1, a2, a3, a4, a5, a6, rfl, ha1len, ha2len, ha3len, ha4len, ha5len, ha6len,
    ?_, ?_, ?_, ?_, ?_, ?_, ?_, ?_, ?_⟩
  · intro x hx
    obtain ⟨e, he, hfe⟩ := mapM_ok_mem h1 x hx
    exact make_argument_none_ok hfe
  · intro x hx
    obtain ⟨e, he, hfe⟩ := mapM_ok_mem h2 x hx
    exact (make_argument_some_ok hfe).1
  · intro x hx
    cases hv : a.vararg with
    | none =>
        rw [hv] at h3
        simp only [optArgSegment, pure, Except.pure, Except.ok.injEq] at h3
        subst h3
        simp at hx
    | some v =>
        rw [hv] at h3
        simp only [optArgSegment] at h3
        obtain ⟨y, hy, hy2⟩ := except_map_ok h3
        subst hy2
        rcases List.mem_singleton.mp hx with rfl
        exact make_argument_none_ok hy
  · intro x hx
    obtain ⟨e, he, hfe⟩ := mapM_ok_mem h4 x hx
    exact make_argument_none_ok hfe
  · intro x hx
    obtain ⟨e, he, hfe⟩ := mapM_ok_mem h5 x hx
    exact (make_argument_some_ok hfe).1
  · intro x hx
    cases hv : a.kwarg with
    | none =>
        rw [hv] at h6
        simp only [optArgSegment, pure, Except.pure, Except.ok.injEq] at h6
        subst h6
        simp at hx
    | some v =>
        rw [hv] at h6
        simp only [optArgSegment] at h6
        obtain ⟨y, hy, hy2⟩ := except_map_ok h6
        subst hy2
        rcases List.mem_singleton.mp hx with rfl
        exact make_argument_none_ok hy
  · intro i hi hi2
    have hzlen : i < ((a.args.drop (a.args.length - a.defaults.length)).zip
        a.defaults).length := by
      rw [List.length_zip, List.length_drop]
      omega
    have hel := mapM_ok_getElem h2 i hzlen hi2
    rw [List.getElem_zip] at hel
    simp only [List.get_eq_getElem]
    exact (make_argument_some_ok hel).2
  · intro i hi hi2
    have hzlen : i < ((a.kwonlyargs.drop (a.kwonlyargs.length - a.kw_defaults.length)).zip
        a.kw_defaults).length := by
      rw [List.length_zip, List.length_drop]
      omega
    have hel := mapM_ok_getElem h5 i hzlen hi2
    rw [List.getElem_zip] at hel
    simp only [List.get_eq_getElem]
    exact (make_argument_some_ok hel).2
  · simp only [List.length_append]
    omega

/-- Witness for `C2_transform_args` at a concrete parameter list
(`def f(x, y=5, *v, k, **nothing)` without the absent kwarg). -/
theorem C2_transform_args_witness :
    ∃ a1 a2 a3 a4 a5 a6 : List Argument,
      ([⟨{ name := "x" }, none, none, .ARG_POS⟩,
        ⟨{ name := "y" }, none, some (.IntExpr 5 1), .ARG_OPT⟩,
        ⟨{ name := "v" }, none, none, .ARG_STAR⟩,
        ⟨{ name := "k" }, none, none, .ARG_NAMED⟩] : List Argument) =
        a1 ++ a2 ++ a3 ++ a4 ++ a5 ++ a6 ∧
      a1.length = ([⟨"x", none⟩, ⟨"y", none⟩] : List RawArg).length -
        ([.numE 1 5] : List SrcExpr).length ∧
      a2.length = ([.numE 1 5] : List SrcExpr).length ∧
      a3.length = (match (some ⟨"v", none⟩ : Option RawArg) with
        | some _ => 1 | none => 0) ∧
      a4.length = ([⟨"k", none⟩] : List RawArg).length -
        ([] : List SrcExpr).length ∧
      a5.length = ([] : List SrcExpr).length ∧
      a6.length = (match (none : Option RawArg) with | some _ => 1 | none => 0) ∧
      (∀ x ∈ a1, x.kind = .ARG_POS ∧ x.initializer = none) ∧
      (∀ x ∈ a2, x.kind = .ARG_OPT) ∧
      (∀ x ∈ a3, x.kind = .ARG_STAR ∧ x.initializer = none) ∧
      (∀ x ∈ a4, x.kind = .ARG_NAMED ∧ x.initializer = none) ∧
      (∀ x ∈ a5, x.kind = .ARG_NAMED) ∧
      (∀ x ∈ a6, x.kind = .ARG_STAR2 ∧ x.initializer = none) ∧
      (∀ i (hi : i < ([.numE 1 5] : List SrcExpr).length) (hi2 : i < a2.length), ∃ d',
          convExpr (([.numE 1 5] : List SrcExpr).get ⟨i, hi⟩) = .ok d' ∧
          (a2.get ⟨i, hi2⟩).initializer = some d') ∧
      (∀ i (hi : i < ([] : List SrcExpr).length) (hi2 : i < a5.length), ∃ d',
          convExpr (([] : List SrcExpr).get ⟨i, hi⟩) = .ok d' ∧
          (a5.get ⟨i, hi2⟩).initializer = some d') ∧
      ([⟨{ name := "x" }, none, none, .ARG_POS⟩,
        ⟨{ name := "y" }, none, some (.IntExpr 5 1), .ARG_OPT⟩,
        ⟨{ name := "v" }, none, none, .ARG_STAR⟩,
        ⟨{ name := "k" }, none, none, .ARG_NAMED⟩] : List Argument).length =
        ([⟨"x", none⟩, ⟨"y", none⟩] : List RawArg).length + a3.length +
          ([⟨"k", none⟩] : List RawArg).length + a6.length :=
  C2_transform_args
    { args := [⟨"x", none⟩, ⟨"y", none⟩], vararg := some ⟨"v", none⟩,
      kwonlyargs := [⟨"k", none⟩], kw_defaults := [], kwarg := none,
      defaults := [.numE 1 5] } 1
    [⟨{ name := "x" }, none, none, .ARG_POS⟩,
     ⟨{ name := "y" }, none, some (.IntExpr 5 1), .ARG_OPT⟩,
     ⟨{ name := "v" }, none, none, .ARG_STAR⟩,
     ⟨{ name := "k" }, none, none, .ARG_NAMED⟩]
    (by simp) (by simp) rfl

end Fastparse
